import Mathlib

/-!
Shallow embedding of the Switchboard time-tracker core (src/app/page.tsx and
src/lib/useLocalStorage.ts): the exclusive-timer state machine, its tick
accumulation step, the task mutation operations, the derived totals, and the
hydration-safe localStorage read.  JavaScript numbers (Date.now timestamps and
elapsed milliseconds) are embedded as Int, strings as String, and each firing
of the periodic setInterval callback as an explicit tick function taking the
wall-clock reading as an argument.  The repository contains two versions of
the Switchboard component (the original HSL-accent one and the revised
oklch/OLED one); the first is embedded in namespace Switchboard and the
second, independently, in namespace SwitchboardV2.
-/

/-- Embedding of JavaScript String.prototype.trim: drop whitespace from both
ends of the string (written over the character list so that it evaluates by
kernel reduction). -/
def jsTrim (s : String) : String :=
  String.mk (((s.data.dropWhile Char.isWhitespace).reverse.dropWhile
    Char.isWhitespace).reverse)

/-- Embedding of JavaScript String.prototype.toLowerCase: lower-case every
character (written over the character list so that it evaluates by kernel
reduction). -/
def jsToLower (s : String) : String := String.mk (s.data.map Char.toLower)

namespace Switchboard

/-- Embedding of interface Task from src/app/page.tsx: elapsed is a count of
milliseconds, isDevOps the external-work-item flag. -/
structure Task where
  id : String
  name : String
  elapsed : Int
  isDevOps : Bool
  deriving Repr, DecidableEq

/-- State of the timer engine: the persisted tasks and activeTaskId together
with the process-local activeStartRef (the last observed wall-clock reading,
null while no task is active). -/
structure EngineState where
  tasks : List Task
  activeTaskId : Option String
  activeStart : Option Int
  deriving Repr, DecidableEq

/-- Embedding of one firing of the setInterval callback of the timer effect:
delta = now - (activeStartRef.current ?? now), the tasks with the active id
get elapsed increased by delta, and the ref advances to now.  While
activeTaskId is null the effect installs no interval, so no tick fires and
the state is unchanged. -/
def tick (now : Int) (s : EngineState) : EngineState :=
  match s.activeTaskId with
  | none => s
  | some aid =>
    let delta := now - (s.activeStart.getD now)
    { s with
      tasks := s.tasks.map fun t =>
        if t.id == aid then { t with elapsed := t.elapsed + delta } else t,
      activeStart := some now }

/-- Embedding of startTask: setActiveTaskId(taskId), unconditionally; the
timer effect then re-runs and resets activeStartRef.current to Date.now()
(the now argument). -/
def startTask (now : Int) (taskId : String) (s : EngineState) : EngineState :=
  { s with activeTaskId := some taskId, activeStart := some now }

/-- Embedding of pauseTask: setActiveTaskId(null); the timer effect then
clears the interval and nulls activeStartRef. -/
def pauseTask (s : EngineState) : EngineState :=
  { s with activeTaskId := none, activeStart := none }

/-- Embedding of toggleTask: pauseTask when taskId is already active,
startTask otherwise. -/
def toggleTask (now : Int) (taskId : String) (s : EngineState) : EngineState :=
  if s.activeTaskId = some taskId then pauseTask s else startTask now taskId s

/-- Embedding of addTask: trim the name, return unchanged if the trim is
empty or some existing task's name matches case-insensitively, otherwise
append a new task with elapsed 0; generateId() is nondeterministic
(Date.now plus Math.random), so the generated id is taken as the freshId
argument. -/
def addTask (freshId : String) (name : String) (isDevOps : Bool)
    (s : EngineState) : EngineState :=
  let trimmed := jsTrim name
  if trimmed = "" then s
  else if s.tasks.any fun t => jsToLower t.name == jsToLower trimmed then s
  else { s with tasks := s.tasks ++
          [{ id := freshId, name := trimmed, elapsed := 0, isDevOps := isDevOps }] }

/-- Embedding of removeTask: setActiveTaskId(null) when the removed id is the
active one (whereupon the timer effect also nulls activeStartRef), and filter
the task out of the collection. -/
def removeTask (taskId : String) (s : EngineState) : EngineState :=
  { s with
    activeTaskId := if s.activeTaskId = some taskId then none else s.activeTaskId,
    activeStart := if s.activeTaskId = some taskId then none else s.activeStart,
    tasks := s.tasks.filter fun t => t.id != taskId }

/-- Embedding of the work-item test in handleAddCustomTask: the regular
expression ^#?\d+$, an optional leading # followed by one or more digits. -/
def isWorkItemInput (s : String) : Bool :=
  match s.data with
  | [] => false
  | '#' :: rest => !rest.isEmpty && rest.all Char.isDigit
  | cs => cs.all Char.isDigit

/-- Embedding of trimmed.replace(/^#/, ""): remove one leading # if present. -/
def stripLeadingHash (s : String) : String :=
  match s.data with
  | '#' :: rest => String.mk rest
  | _ => s

/-- Classification rule inside handleAddCustomTask: the isDevOps flag from the
work-item test on the trimmed input, paired with the name argument passed on
to addTask (the normalized work-item name, or the raw input which addTask
itself trims). -/
def classifyInput (newTaskName : String) : Bool × String :=
  let isDevOps := isWorkItemInput (jsTrim newTaskName)
  (isDevOps,
   if isDevOps then "WI #" ++ stripLeadingHash (jsTrim newTaskName)
   else newTaskName)

/-- Embedding of handleAddCustomTask: when the input is nonempty after trim,
classify it and call addTask with the classified name and flag. -/
def handleAddCustomTask (freshId : String) (newTaskName : String)
    (s : EngineState) : EngineState :=
  if jsTrim newTaskName ≠ "" then
    addTask freshId (classifyInput newTaskName).2 (classifyInput newTaskName).1 s
  else s

/-- Embedding of the derived activeTask:
tasks.find((t) => t.id === activeTaskId) ?? null. -/
def activeTask (s : EngineState) : Option Task :=
  s.tasks.find? fun t => s.activeTaskId == some t.id

/-- Embedding of totalTime: tasks.reduce((sum, t) => sum + t.elapsed, 0). -/
def totalTime (tasks : List Task) : Int :=
  tasks.foldl (fun sum t => sum + t.elapsed) 0

/-- Embedding of the per-task percentage of the Daily Summary:
Math.round((task.elapsed / totalTime) * 100) when totalTime > 0, else 0.
The JavaScript double arithmetic is embedded as exact rational arithmetic. -/
def taskPct (elapsed total : Int) : Int :=
  if 0 < total then round (((elapsed : ℚ) / (total : ℚ)) * 100) else 0

/-- Embedding of the Daily Summary list:
tasks.filter((t) => t.elapsed > 0).sort((a, b) => b.elapsed - a.elapsed).
The JavaScript stable sort with this comparator is embedded as a stable sort
by nonincreasing elapsed. -/
def summaryTasks (tasks : List Task) : List Task :=
  List.insertionSort (fun a b => b.elapsed ≤ a.elapsed)
    (tasks.filter fun t => 0 < t.elapsed)

/-- Embedding of the component's startup: the useLocalStorage reads supply the
persisted tasks (default []) and activeTaskId (default null) and
activeStartRef starts null; the source performs no validation of the
persisted id against the loaded tasks. -/
def initEngine (storedTasks : List Task) (storedActive : Option String) :
    EngineState :=
  { tasks := storedTasks, activeTaskId := storedActive, activeStart := none }

/-- Commands of the exclusive-timer state machine that change the active id. -/
inductive TimerOp where
  | start (now : Int) (taskId : String)
  | pause
  | toggle (now : Int) (taskId : String)

/-- Interpretation of one timer command on the engine state. -/
def applyTimerOp (op : TimerOp) (s : EngineState) : EngineState :=
  match op with
  | TimerOp.start now taskId => startTask now taskId s
  | TimerOp.pause => pauseTask s
  | TimerOp.toggle now taskId => toggleTask now taskId s

/-- Interpretation of a sequence of timer commands, applied left to right. -/
def runTimerOps (ops : List TimerOp) (s : EngineState) : EngineState :=
  ops.foldl (fun st op => applyTimerOp op st) s

/-- A task id is active when activeTaskId holds it. -/
def isActive (s : EngineState) (taskId : String) : Prop :=
  s.activeTaskId = some taskId

/-- Elapsed milliseconds recorded for the first task with the given id
(0 when no task has the id). -/
def elapsedOf (s : EngineState) (taskId : String) : Int :=
  match s.tasks.find? (fun t => t.id == taskId) with
  | some t => t.elapsed
  | none => 0

/-- Interpretation of a sequence of interval firings at the given wall-clock
readings, applied left to right. -/
def runTicks (times : List Int) (s : EngineState) : EngineState :=
  times.foldl (fun st n => tick n st) s

/-- Names of the tasks are pairwise distinct up to lower-casing: the
duplicate-name invariant that addTask is meant to preserve. -/
def namesCaseInsensitivelyUnique (tasks : List Task) : Prop :=
  tasks.Pairwise fun t1 t2 => jsToLower t1.name ≠ jsToLower t2.name

end Switchboard

/-- Model of a JSON value, the possible results of JSON.parse. -/
inductive JValue where
  | null
  | bool (b : Bool)
  | num (n : Int)
  | str (s : String)
  | arr (elems : List JValue)
  | obj (fields : List (String × JValue))
  deriving Repr

/-- Model of the string stored in localStorage under one key, at JSON.parse
granularity: corrupt stands for a stored string on which JSON.parse throws
(or the empty string, which the item truthiness test also sends to the
fallback), parsed v for a stored string that JSON.parse turns into v.  The
subsequent cast to T in the source performs no runtime check, so the parsed
value is kept whatever its shape. -/
inductive StoredPayload where
  | corrupt
  | parsed (v : JValue)

/-- Model of the browser localStorage: none when window is undefined or the
store is unavailable, otherwise the getItem map from keys to the payload
stored under them (none when getItem returns null). -/
def LocalStorage : Type := Option (String → Option StoredPayload)

/-- Embedding of readFromStorage from src/lib/useLocalStorage.ts: the
initialValue when the store is unavailable, when no item is stored under the
key, or when JSON.parse throws (the try/catch); otherwise the parsed value,
returned as is by the unchecked cast. -/
def readFromStorage (store : LocalStorage) (key : String)
    (initialValue : JValue) : JValue :=
  match store with
  | none => initialValue
  | some getItem =>
    match getItem key with
    | none => initialValue
    | some StoredPayload.corrupt => initialValue
    | some (StoredPayload.parsed v) => v

/-- Embedding of the value returned by useLocalStorage: storedValue is
initialized from readFromStorage, and the hook returns
hydrated ? storedValue : initialValue. -/
def useLocalStorageValue (hydrated : Bool) (store : LocalStorage)
    (key : String) (initialValue : JValue) : JValue :=
  if hydrated then readFromStorage store key initialValue else initialValue

namespace SwitchboardV2

open Switchboard (Task EngineState)

/-- Embedding of the revised (oklch/OLED) component's setInterval callback:
identical text to the original timer effect. -/
def tick (now : Int) (s : EngineState) : EngineState :=
  match s.activeTaskId with
  | none => s
  | some aid =>
    let delta := now - (s.activeStart.getD now)
    { s with
      tasks := s.tasks.map fun t =>
        if t.id == aid then { t with elapsed := t.elapsed + delta } else t,
      activeStart := some now }

/-- Embedding of the revised component's startTask. -/
def startTask (now : Int) (taskId : String) (s : EngineState) : EngineState :=
  { s with activeTaskId := some taskId, activeStart := some now }

/-- Embedding of the revised component's pauseTask. -/
def pauseTask (s : EngineState) : EngineState :=
  { s with activeTaskId := none, activeStart := none }

/-- Embedding of the revised component's toggleTask. -/
def toggleTask (now : Int) (taskId : String) (s : EngineState) : EngineState :=
  if s.activeTaskId = some taskId then pauseTask s else startTask now taskId s

/-- Embedding of the revised component's addTask. -/
def addTask (freshId : String) (name : String) (isDevOps : Bool)
    (s : EngineState) : EngineState :=
  let trimmed := jsTrim name
  if trimmed = "" then s
  else if s.tasks.any fun t => jsToLower t.name == jsToLower trimmed then s
  else { s with tasks := s.tasks ++
          [{ id := freshId, name := trimmed, elapsed := 0, isDevOps := isDevOps }] }

/-- Embedding of the revised component's removeTask. -/
def removeTask (taskId : String) (s : EngineState) : EngineState :=
  { s with
    activeTaskId := if s.activeTaskId = some taskId then none else s.activeTaskId,
    activeStart := if s.activeTaskId = some taskId then none else s.activeStart,
    tasks := s.tasks.filter fun t => t.id != taskId }

end SwitchboardV2

/-- C1: after any sequence of startTask/pauseTask/toggleTask commands from
any state at most one task id is active; a startTask call replaces the active
id in a single atomic step whose result is Running on the started id (never
an intermediate Idle state); and one tick credits time to at most the single
active id: every task whose id differs from the active id is carried over
unchanged. -/
theorem exclusivity_invariant :
    (∀ (s : Switchboard.EngineState) (ops : List Switchboard.TimerOp)
        (a b : String),
      Switchboard.isActive (Switchboard.runTimerOps ops s) a →
      Switchboard.isActive (Switchboard.runTimerOps ops s) b → a = b)
    ∧ (∀ (s : Switchboard.EngineState) (now : Int) (x : String),
      (Switchboard.startTask now x s).activeTaskId = some x)
    ∧ (∀ (s : Switchboard.EngineState) (now : Int) (a : String)
        (t : Switchboard.Task),
      s.activeTaskId = some a → t ∈ s.tasks → t.id ≠ a →
      t ∈ (Switchboard.tick now s).tasks) := by
  refine ⟨?_, ?_, ?_⟩
  · intro s ops a b ha hb
    unfold Switchboard.isActive at ha hb
    exact Option.some.inj (ha.symm.trans hb)
  · intro s now x
    rfl
  · intro s now a t hact hmem hne
    unfold Switchboard.tick
    rw [hact]
    exact List.mem_map.mpr ⟨t, hmem, by simp [hne]⟩

/-- C1 witness: in a concrete two-task state, after start A then start B the
single active id is B, and a tick while A is active leaves task b
unchanged. -/
theorem exclusivity_invariant_witness :
    "b" = "b"
    ∧ (Switchboard.startTask 5 "b"
        (Switchboard.EngineState.mk
          [Switchboard.Task.mk "a" "A" 0 false,
           Switchboard.Task.mk "b" "B" 0 false] (some "a")
          (some 0))).activeTaskId = some "b"
    ∧ Switchboard.Task.mk "b" "B" 0 false ∈
        (Switchboard.tick 7
          (Switchboard.EngineState.mk
            [Switchboard.Task.mk "a" "A" 0 false,
             Switchboard.Task.mk "b" "B" 0 false] (some "a")
            (some 0))).tasks := by
  refine ⟨?_, ?_, ?_⟩
  · exact
      exclusivity_invariant.1
        (Switchboard.EngineState.mk
          [Switchboard.Task.mk "a" "A" 0 false,
           Switchboard.Task.mk "b" "B" 0 false] none none)
        [Switchboard.TimerOp.start 0 "a", Switchboard.TimerOp.start 5 "b"]
        "b" "b" rfl rfl
  · exact
      exclusivity_invariant.2.1
        (Switchboard.EngineState.mk
          [Switchboard.Task.mk "a" "A" 0 false,
           Switchboard.Task.mk "b" "B" 0 false] (some "a") (some 0)) 5 "b"
  · exact
      exclusivity_invariant.2.2
        (Switchboard.EngineState.mk
          [Switchboard.Task.mk "a" "A" 0 false,
           Switchboard.Task.mk "b" "B" 0 false] (some "a") (some 0)) 7 "a"
        (Switchboard.Task.mk "b" "B" 0 false) rfl (by decide) (by decide)

/-- C3 counterexample: reconstructing the initial state from a persisted
activeTaskId that is absent from the loaded (empty) task collection leaves
the engine with activeTaskId = some "ghost", not Idle: the source performs no
validation of the persisted id. -/
theorem active_id_validity_counterexample :
    (Switchboard.initEngine [] (some "ghost")).tasks = []
    ∧ (Switchboard.initEngine [] (some "ghost")).activeTaskId = some "ghost" :=
  ⟨rfl, rfl⟩

/-- C3 amended: the engine performs no validation of activeTaskId against the
task collection, so a dangling active id can arise (from startup
reconstruction or from startTask with an unknown id); however, with a
dangling active id the derived activeTask is none, every tick leaves the task
collection unchanged, and removeTask of the dangling id clears
activeTaskId — so the engine behaves observationally as Idle. -/
theorem active_id_validity_amended :
    ∀ (s : Switchboard.EngineState) (ghost : String) (now : Int),
    s.activeTaskId = some ghost → (∀ t ∈ s.tasks, t.id ≠ ghost) →
    Switchboard.activeTask s = none
    ∧ (Switchboard.tick now s).tasks = s.tasks
    ∧ (Switchboard.removeTask ghost s).activeTaskId = none := by
  intro s ghost now hact hmem
  refine ⟨?_, ?_, ?_⟩
  · unfold Switchboard.activeTask
    rw [List.find?_eq_none]
    intro t ht
    simp [hact]
    exact fun h => (hmem t ht) h.symm
  · unfold Switchboard.tick
    rw [hact]
    have : ∀ t ∈ s.tasks,
        (if t.id == ghost
          then { t with elapsed := t.elapsed + (now - s.activeStart.getD now) }
          else t) = t := by
      intro t ht
      simp [hmem t ht]
    exact (List.map_congr_left this).trans (List.map_id' s.tasks)
  · unfold Switchboard.removeTask
    simp [hact]

/-- C3 amended witness: with one task a and a dangling persisted active id
ghost, the derived active task is none, a tick at time 9 changes no task, and
removing ghost clears the active id. -/
theorem active_id_validity_amended_witness :
    Switchboard.activeTask
        (Switchboard.EngineState.mk [Switchboard.Task.mk "a" "A" 5 false]
          (some "ghost") (some 0)) = none
    ∧ (Switchboard.tick 9
        (Switchboard.EngineState.mk [Switchboard.Task.mk "a" "A" 5 false]
          (some "ghost") (some 0))).tasks
      = [Switchboard.Task.mk "a" "A" 5 false]
    ∧ (Switchboard.removeTask "ghost"
        (Switchboard.EngineState.mk [Switchboard.Task.mk "a" "A" 5 false]
          (some "ghost") (some 0))).activeTaskId = none :=
  active_id_validity_amended
    (Switchboard.EngineState.mk [Switchboard.Task.mk "a" "A" 5 false]
      (some "ghost") (some 0)) "ghost" 9 rfl (by decide)

/-- C4 counterexample: startTask with an id that references no existing task
(the collection is empty) is not a no-op: it changes activeTaskId. -/
theorem starttask_unknown_counterexample :
    Switchboard.startTask 0 "x" (Switchboard.EngineState.mk [] none none)
      ≠ Switchboard.EngineState.mk [] none none := by
  decide

/-- C4 amended: startTask never modifies the task collection, but it sets
activeTaskId to the given id unconditionally, even when the id references no
existing task — it is not a silent no-op for unknown ids. -/
theorem starttask_unknown_amended :
    ∀ (s : Switchboard.EngineState) (now : Int) (taskId : String),
    (∀ t ∈ s.tasks, t.id ≠ taskId) →
    (Switchboard.startTask now taskId s).tasks = s.tasks
    ∧ (Switchboard.startTask now taskId s).activeTaskId = some taskId := by
  intro s now taskId hmem
  exact ⟨rfl, rfl⟩

/-- C4 amended witness: starting unknown id x in a one-task state keeps the
tasks and makes x active. -/
theorem starttask_unknown_amended_witness :
    (Switchboard.startTask 3 "x"
        (Switchboard.EngineState.mk [Switchboard.Task.mk "a" "A" 0 false]
          none none)).tasks
      = [Switchboard.Task.mk "a" "A" 0 false]
    ∧ (Switchboard.startTask 3 "x"
        (Switchboard.EngineState.mk [Switchboard.Task.mk "a" "A" 0 false]
          none none)).activeTaskId = some "x" :=
  starttask_unknown_amended
    (Switchboard.EngineState.mk [Switchboard.Task.mk "a" "A" 0 false]
      none none) 3 "x" (by decide)

/-- C10: the two versions of the Switchboard component implement extensionally
equal core timer operations: startTask, pauseTask, toggleTask, addTask,
removeTask and the tick accumulation step agree on every state and
argument. -/
theorem version_equivalence :
    (∀ (now : Int) (taskId : String) (s : Switchboard.EngineState),
      SwitchboardV2.startTask now taskId s = Switchboard.startTask now taskId s)
    ∧ (∀ s : Switchboard.EngineState,
      SwitchboardV2.pauseTask s = Switchboard.pauseTask s)
    ∧ (∀ (now : Int) (taskId : String) (s : Switchboard.EngineState),
      SwitchboardV2.toggleTask now taskId s = Switchboard.toggleTask now taskId s)
    ∧ (∀ (freshId name : String) (isDevOps : Bool) (s : Switchboard.EngineState),
      SwitchboardV2.addTask freshId name isDevOps s
        = Switchboard.addTask freshId name isDevOps s)
    ∧ (∀ (taskId : String) (s : Switchboard.EngineState),
      SwitchboardV2.removeTask taskId s = Switchboard.removeTask taskId s)
    ∧ (∀ (now : Int) (s : Switchboard.EngineState),
      SwitchboardV2.tick now s = Switchboard.tick now s) :=
  ⟨fun _ _ _ => rfl, fun _ => rfl, fun _ _ _ => rfl, fun _ _ _ _ => rfl,
   fun _ _ => rfl, fun _ _ => rfl⟩

/-- C5 counterexample: a stored payload of the wrong shape that is valid JSON
(the number 42 under the tasks key, whose initialValue is the empty array) is
returned as is after hydration, not treated as absence: the cast in
readFromStorage performs no shape check. -/
theorem hydration_read_counterexample :
    useLocalStorageValue true
        (some fun _ => some (StoredPayload.parsed (JValue.num 42)))
        "switchboard-tasks" (JValue.arr [])
      = JValue.num 42
    ∧ JValue.num 42 ≠ JValue.arr [] :=
  ⟨rfl, fun h => nomatch h⟩

/-- C5 amended: the observed value equals initialValue whenever hydration has
not completed, whenever the store is unavailable, whenever no value is stored
under the key, and whenever the stored payload is corrupt JSON (a parse
failure never throws); but once hydration completes, any payload that parses
as valid JSON is returned verbatim — including payloads of the wrong shape,
which are not treated as absence. -/
theorem hydration_read_amended :
    (∀ (store : LocalStorage) (key : String) (initialValue : JValue),
      useLocalStorageValue false store key initialValue = initialValue)
    ∧ (∀ (hydrated : Bool) (key : String) (initialValue : JValue),
      useLocalStorageValue hydrated none key initialValue = initialValue)
    ∧ (∀ (getItem : String → Option StoredPayload) (hydrated : Bool)
        (key : String) (initialValue : JValue),
      getItem key = none →
      useLocalStorageValue hydrated (some getItem) key initialValue
        = initialValue)
    ∧ (∀ (getItem : String → Option StoredPayload) (hydrated : Bool)
        (key : String) (initialValue : JValue),
      getItem key = some StoredPayload.corrupt →
      useLocalStorageValue hydrated (some getItem) key initialValue
        = initialValue)
    ∧ (∀ (getItem : String → Option StoredPayload) (key : String)
        (initialValue v : JValue),
      getItem key = some (StoredPayload.parsed v) →
      useLocalStorageValue true (some getItem) key initialValue = v) := by
  refine ⟨?_, ?_, ?_, ?_, ?_⟩
  · intro store key initialValue
    rfl
  · intro hydrated key initialValue
    cases hydrated <;> rfl
  · intro getItem hydrated key initialValue h
    cases hydrated <;> simp [useLocalStorageValue, readFromStorage, h]
  · intro getItem hydrated key initialValue h
    cases hydrated <;> simp [useLocalStorageValue, readFromStorage, h]
  · intro getItem key initialValue v h
    simp [useLocalStorageValue, readFromStorage, h]

/-- C5 amended witness: with a concrete store holding a corrupt payload under
key k and a parsed string under key s, reads fall back to the default for k
and return the stored string for s, and nothing is observed before
hydration. -/
theorem hydration_read_amended_witness :
    useLocalStorageValue false
        (some fun _ => some (StoredPayload.parsed (JValue.str "late")))
        "switchboard-active" JValue.null
      = JValue.null
    ∧ useLocalStorageValue true
        (some fun _ => some StoredPayload.corrupt) "switchboard-tasks"
        (JValue.arr [])
      = JValue.arr []
    ∧ useLocalStorageValue true
        (some fun _ => some (StoredPayload.parsed (JValue.str "a1")))
        "switchboard-active" JValue.null
      = JValue.str "a1" :=
  ⟨hydration_read_amended.1
      (some fun _ => some (StoredPayload.parsed (JValue.str "late")))
      "switchboard-active" JValue.null,
   hydration_read_amended.2.2.2.1 (fun _ => some StoredPayload.corrupt) true
      "switchboard-tasks" (JValue.arr []) rfl,
   hydration_read_amended.2.2.2.2 (fun _ => some (StoredPayload.parsed
      (JValue.str "a1"))) "switchboard-active" JValue.null (JValue.str "a1") rfl⟩

/-- C7 counterexample: in a state whose activeTaskId dangles (no task has id
ghost, the collection is empty), removeTask of ghost is not a no-op: it
clears activeTaskId. -/
theorem removetask_counterexample :
    (Switchboard.EngineState.mk [] (some "ghost") none).tasks = []
    ∧ Switchboard.removeTask "ghost"
        (Switchboard.EngineState.mk [] (some "ghost") none)
      ≠ Switchboard.EngineState.mk [] (some "ghost") none := by
  exact ⟨rfl, by decide⟩

/-- C7 amended: removeTask of an id that references no existing task leaves
the task collection unchanged, and is a full no-op provided the id is also
not the (possibly dangling) activeTaskId; removeTask always keeps exactly the
tasks whose id differs; and when the removed id is the active one it
atomically clears activeTaskId, so from Running(x) removeTask(x) yields Idle
with x absent from the tasks. -/
theorem removetask_amended :
    ∀ (taskId : String) (s : Switchboard.EngineState),
    ((∀ t ∈ s.tasks, t.id ≠ taskId) → s.activeTaskId ≠ some taskId →
      Switchboard.removeTask taskId s = s)
    ∧ (Switchboard.removeTask taskId s).tasks
        = s.tasks.filter (fun t => t.id != taskId)
    ∧ (s.activeTaskId = some taskId →
      (Switchboard.removeTask taskId s).activeTaskId = none
      ∧ ∀ t ∈ (Switchboard.removeTask taskId s).tasks, t.id ≠ taskId)
    ∧ (s.activeTaskId ≠ some taskId →
      (Switchboard.removeTask taskId s).activeTaskId = s.activeTaskId) := by
  intro taskId s
  refine ⟨?_, rfl, ?_, ?_⟩
  · intro hmem hact
    obtain ⟨tasks, activeTaskId, activeStart⟩ := s
    unfold Switchboard.removeTask
    simp only at hmem hact
    simp only [Switchboard.EngineState.mk.injEq]
    refine ⟨?_, if_neg hact, if_neg hact⟩
    rw [List.filter_eq_self]
    intro t ht
    simpa using hmem t ht
  · intro hact
    refine ⟨by simp [Switchboard.removeTask, hact], ?_⟩
    intro t ht
    have := List.of_mem_filter ht
    simpa using this
  · intro hact
    simp [Switchboard.removeTask, hact]

/-- C7 amended witness: removing the unknown id x from a one-task idle state
is a full no-op, and removing the running task a yields Idle with a absent. -/
theorem removetask_amended_witness :
    Switchboard.removeTask "x"
        (Switchboard.EngineState.mk [Switchboard.Task.mk "a" "A" 9 false]
          none none)
      = Switchboard.EngineState.mk [Switchboard.Task.mk "a" "A" 9 false]
          none none
    ∧ (Switchboard.removeTask "a"
        (Switchboard.EngineState.mk [Switchboard.Task.mk "a" "A" 9 false]
          (some "a") (some 0))).activeTaskId = none :=
  ⟨(removetask_amended "x"
      (Switchboard.EngineState.mk [Switchboard.Task.mk "a" "A" 9 false]
        none none)).1 (by decide) (by decide),
   ((removetask_amended "a"
      (Switchboard.EngineState.mk [Switchboard.Task.mk "a" "A" 9 false]
        (some "a") (some 0))).2.2.1 rfl).1⟩

/-- C8: classification of the add-task input is total (the flag is a boolean,
so every string falls in exactly one of the two classes and classification
never fails); inputs 12345 and #12345 both classify as external work items
stored as WI #12345, Standup classifies as a plain task stored unchanged; and
in general a trimmed input matching the work-item pattern yields the flag
true with the fixed prefix plus the digits with the # stripped, while any
other input yields the flag false with the raw input passed through (addTask
then trims it, so the stored name is the trimmed input unchanged). -/
theorem input_classification :
    Switchboard.classifyInput "12345" = (true, "WI #12345")
    ∧ Switchboard.classifyInput "#12345" = (true, "WI #12345")
    ∧ Switchboard.classifyInput "Standup" = (false, "Standup")
    ∧ (Switchboard.handleAddCustomTask "id1" "12345"
        (Switchboard.EngineState.mk [] none none)).tasks
      = [Switchboard.Task.mk "id1" "WI #12345" 0 true]
    ∧ (Switchboard.handleAddCustomTask "id2" "#12345"
        (Switchboard.EngineState.mk [] none none)).tasks
      = [Switchboard.Task.mk "id2" "WI #12345" 0 true]
    ∧ (Switchboard.handleAddCustomTask "id3" " Standup "
        (Switchboard.EngineState.mk [] none none)).tasks
      = [Switchboard.Task.mk "id3" "Standup" 0 false]
    ∧ (∀ raw : String,
      ((Switchboard.classifyInput raw).1 = true
        ∨ (Switchboard.classifyInput raw).1 = false)
      ∧ (Switchboard.isWorkItemInput (jsTrim raw) = true →
        Switchboard.classifyInput raw
          = (true, "WI #" ++ Switchboard.stripLeadingHash (jsTrim raw)))
      ∧ (Switchboard.isWorkItemInput (jsTrim raw) = false →
        Switchboard.classifyInput raw = (false, raw))) := by
  refine ⟨by decide, by decide, by decide, by decide, by decide, by decide, ?_⟩
  intro raw
  refine ⟨Bool.eq_false_or_eq_true _, ?_, ?_⟩
  · intro h
    simp [Switchboard.classifyInput, h]
  · intro h
    simp [Switchboard.classifyInput, h]

/-- C8 witness: the general classification conjunct applied to the concrete
inputs #77 (work item) and Lunch (plain). -/
theorem input_classification_witness :
    Switchboard.classifyInput "#77"
      = (true, "WI #" ++ Switchboard.stripLeadingHash (jsTrim "#77"))
    ∧ Switchboard.classifyInput "Lunch" = (false, "Lunch") :=
  ⟨((input_classification.2.2.2.2.2.2 "#77").2.1 (by decide)),
   ((input_classification.2.2.2.2.2.2 "Lunch").2.2 (by decide))⟩

/-- C6: addTask trims the name; it is a no-op when the trimmed name is empty
or some existing task's name equals it case-insensitively; otherwise it
appends exactly one new task holding the trimmed name, elapsed 0, the given
flag and the supplied fresh id, leaving the active id untouched — and it
always preserves the case-insensitive name-uniqueness invariant. -/
theorem addtask_semantics :
    ∀ (freshId name : String) (isDevOps : Bool) (s : Switchboard.EngineState),
    (jsTrim name = "" → Switchboard.addTask freshId name isDevOps s = s)
    ∧ ((s.tasks.any fun t => jsToLower t.name == jsToLower (jsTrim name)) = true →
      Switchboard.addTask freshId name isDevOps s = s)
    ∧ (jsTrim name ≠ "" →
      (s.tasks.any fun t => jsToLower t.name == jsToLower (jsTrim name)) = false →
      (Switchboard.addTask freshId name isDevOps s).tasks
        = s.tasks ++ [Switchboard.Task.mk freshId (jsTrim name) 0 isDevOps]
      ∧ (Switchboard.addTask freshId name isDevOps s).activeTaskId
        = s.activeTaskId)
    ∧ (Switchboard.namesCaseInsensitivelyUnique s.tasks →
      Switchboard.namesCaseInsensitivelyUnique
        (Switchboard.addTask freshId name isDevOps s).tasks) := by
  intro freshId name isDevOps s
  refine ⟨?_, ?_, ?_, ?_⟩
  · intro h
    simp [Switchboard.addTask, h]
  · intro h
    by_cases he : jsTrim name = ""
    · simp [Switchboard.addTask, he]
    · simp [Switchboard.addTask, he, h]
  · intro he h
    constructor <;> simp [Switchboard.addTask, he, h]
  · intro hu
    by_cases he : jsTrim name = ""
    · simpa [Switchboard.addTask, he] using hu
    · by_cases h :
        (s.tasks.any fun t => jsToLower t.name == jsToLower (jsTrim name)) = true
      · simpa [Switchboard.addTask, he, h] using hu
      · have h2 :
            (s.tasks.any fun t => jsToLower t.name == jsToLower (jsTrim name))
              = false := eq_false_of_ne_true h
        unfold Switchboard.namesCaseInsensitivelyUnique at hu ⊢
        simp only [Switchboard.addTask, he, h2, if_neg, if_false,
          Bool.false_eq_true, reduceIte]
        refine List.pairwise_append.mpr ⟨hu, List.pairwise_singleton _ _, ?_⟩
        intro a ha b hb
        rw [List.mem_singleton] at hb
        subst hb
        have hall := List.any_eq_false.mp h2 a ha
        simpa using hall

/-- C6 witness: adding meeting when Meeting already exists is a no-op
(case-insensitive duplicate), and adding the fresh name Email (with
surrounding whitespace) preserves the name-uniqueness invariant. -/
theorem addtask_semantics_witness :
    Switchboard.addTask "i2" "meeting" false
        (Switchboard.EngineState.mk
          [Switchboard.Task.mk "i1" "Meeting" 0 false] none none)
      = Switchboard.EngineState.mk
          [Switchboard.Task.mk "i1" "Meeting" 0 false] none none
    ∧ Switchboard.namesCaseInsensitivelyUnique
        (Switchboard.addTask "i3" " Email " false
          (Switchboard.EngineState.mk
            [Switchboard.Task.mk "i1" "Meeting" 0 false] none none)).tasks :=
  ⟨(addtask_semantics "i2" "meeting" false
      (Switchboard.EngineState.mk
        [Switchboard.Task.mk "i1" "Meeting" 0 false] none none)).2.1
      (by decide),
   (addtask_semantics "i3" " Email " false
      (Switchboard.EngineState.mk
        [Switchboard.Task.mk "i1" "Meeting" 0 false] none none)).2.2.2
      (by unfold Switchboard.namesCaseInsensitivelyUnique; decide)⟩

/-- Total order instance for the descending-elapsed comparator of the Daily
Summary sort. -/
instance : IsTotal Switchboard.Task fun a b => b.elapsed ≤ a.elapsed :=
  ⟨fun a b => le_total b.elapsed a.elapsed⟩

/-- Transitivity instance for the descending-elapsed comparator of the Daily
Summary sort. -/
instance : IsTrans Switchboard.Task fun a b => b.elapsed ≤ a.elapsed :=
  ⟨fun _ _ _ h1 h2 => le_trans h2 h1⟩

/-- Folding task elapsed values onto an accumulator sums them. -/
lemma foldl_elapsed_eq (tasks : List Switchboard.Task) :
    ∀ acc : Int, tasks.foldl (fun sum t => sum + t.elapsed) acc
      = acc + (tasks.map Switchboard.Task.elapsed).sum := by
  induction tasks with
  | nil => intro acc; simp
  | cons t ts ih => intro acc; simp [ih, add_assoc]

/-- C9: the reported total is the sum of all elapsed values; the per-task
percentage is round(100 * elapsed / total) when the total is positive and 0
otherwise; the summary list is a permutation of exactly the tasks with
positive elapsed, sorted by nonincreasing elapsed; and on elapsed values
[100, 200, 700] the total is 1000, the percentages are [10, 20, 70] and the
summary order is descending. -/
theorem derived_totals :
    (∀ tasks : List Switchboard.Task,
      Switchboard.totalTime tasks = (tasks.map Switchboard.Task.elapsed).sum)
    ∧ (∀ e total : Int, 0 < total →
      Switchboard.taskPct e total = round ((100 * (e : ℚ)) / (total : ℚ)))
    ∧ (∀ e total : Int, ¬0 < total → Switchboard.taskPct e total = 0)
    ∧ (∀ tasks : List Switchboard.Task,
      (Switchboard.summaryTasks tasks).Perm
        (tasks.filter fun t => 0 < t.elapsed))
    ∧ (∀ tasks : List Switchboard.Task,
      (Switchboard.summaryTasks tasks).Pairwise
        fun a b => b.elapsed ≤ a.elapsed)
    ∧ Switchboard.totalTime
        [Switchboard.Task.mk "a" "A" 100 false,
         Switchboard.Task.mk "b" "B" 200 false,
         Switchboard.Task.mk "c" "C" 700 false] = 1000
    ∧ Switchboard.taskPct 100 1000 = 10
    ∧ Switchboard.taskPct 200 1000 = 20
    ∧ Switchboard.taskPct 700 1000 = 70
    ∧ Switchboard.summaryTasks
        [Switchboard.Task.mk "a" "A" 100 false,
         Switchboard.Task.mk "b" "B" 200 false,
         Switchboard.Task.mk "c" "C" 700 false]
      = [Switchboard.Task.mk "c" "C" 700 false,
         Switchboard.Task.mk "b" "B" 200 false,
         Switchboard.Task.mk "a" "A" 100 false] := by
  refine ⟨?_, ?_, ?_, ?_, ?_, by decide, ?_, ?_, ?_, by decide⟩
  · intro tasks
    simpa using foldl_elapsed_eq tasks 0
  · intro e total h
    unfold Switchboard.taskPct
    rw [if_pos h]
    congr 1
    ring
  · intro e total h
    unfold Switchboard.taskPct
    rw [if_neg h]
  · intro tasks
    exact List.perm_insertionSort _ _
  · intro tasks
    exact List.sorted_insertionSort _ _
  · norm_num [Switchboard.taskPct, round_eq]
  · norm_num [Switchboard.taskPct, round_eq]
  · norm_num [Switchboard.taskPct, round_eq]

/-- C9 witness: the percentage formula of the claim applied at elapsed 700 of
total 1000. -/
theorem derived_totals_witness :
    Switchboard.taskPct 700 1000
      = round ((100 * ((700 : Int) : ℚ)) / ((1000 : Int) : ℚ)) :=
  derived_totals.2.1 700 1000 (by decide)

/-- Searching the bumped task list for the active id finds the bumped version
of whatever the search found before the bump. -/
lemma find_bump (x : String) (delta : Int) :
    ∀ tasks : List Switchboard.Task,
    ((tasks.map fun t =>
        if t.id == x then { t with elapsed := t.elapsed + delta } else t).find?
        fun t => t.id == x)
      = (tasks.find? fun t => t.id == x).map
          fun t => { t with elapsed := t.elapsed + delta } := by
  intro tasks
  induction tasks with
  | nil => rfl
  | cons t ts ih =>
    by_cases h : t.id = x
    · have hb : (t.id == x) = true := by simp [h]
      have hb2 :
          (({ t with elapsed := t.elapsed + delta } : Switchboard.Task).id == x)
            = true := by simp [h]
      simp only [List.map_cons, hb, if_true, List.find?_cons, hb2,
        Option.map_some']
    · have hb : (t.id == x) = false := by simp [h]
      simp only [List.map_cons, hb, Bool.false_eq_true, if_false,
        List.find?_cons, ih]

/-- One tick while Running(x) with a set activeStart adds exactly
now - activeStart to x's elapsed, advances activeStart to now, and keeps the
active id and the presence of x. -/
lemma tick_spec (s : Switchboard.EngineState) (x : String) (now t0 : Int)
    (hact : s.activeTaskId = some x) (hstart : s.activeStart = some t0)
    (hmem : ∃ t ∈ s.tasks, t.id = x) :
    Switchboard.elapsedOf (Switchboard.tick now s) x
        = Switchboard.elapsedOf s x + (now - t0)
    ∧ (Switchboard.tick now s).activeTaskId = some x
    ∧ (Switchboard.tick now s).activeStart = some now
    ∧ ∃ t ∈ (Switchboard.tick now s).tasks, t.id = x := by
  obtain ⟨w, hw, hwid⟩ := hmem
  have hfound : ∃ u, (s.tasks.find? fun t => t.id == x) = some u := by
    rw [← Option.isSome_iff_exists]
    exact List.find?_isSome.mpr ⟨w, hw, by simp [hwid]⟩
  obtain ⟨u, hu⟩ := hfound
  refine ⟨?_, ?_, ?_, ?_⟩
  · unfold Switchboard.elapsedOf
    simp only [Switchboard.tick, hact, hstart, Option.getD_some]
    rw [find_bump, hu]
    simp
  · simp [Switchboard.tick, hact]
  · simp [Switchboard.tick, hact]
  · refine ⟨{ w with elapsed := w.elapsed + (now - s.activeStart.getD now) },
      ?_, hwid⟩
    simp only [Switchboard.tick, hact]
    exact List.mem_map.mpr ⟨w, hw, by simp [hwid]⟩

/-- Running a sequence of ticks from Running(x) with activeStart t0 increases
the elapsed of x by exactly the last reading minus t0, the differences
telescoping away, and ends with activeStart at the last reading. -/
lemma runTicks_spec (x : String) :
    ∀ (times : List Int) (s : Switchboard.EngineState) (t0 : Int),
    s.activeTaskId = some x → s.activeStart = some t0 →
    (∃ t ∈ s.tasks, t.id = x) →
    Switchboard.elapsedOf (Switchboard.runTicks times s) x
        = Switchboard.elapsedOf s x + (times.getLastD t0 - t0)
    ∧ (Switchboard.runTicks times s).activeTaskId = some x
    ∧ (Switchboard.runTicks times s).activeStart = some (times.getLastD t0)
    ∧ ∃ t ∈ (Switchboard.runTicks times s).tasks, t.id = x := by
  intro times
  induction times with
  | nil =>
    intro s t0 h1 h2 h3
    exact ⟨by simp [Switchboard.runTicks], h1, by simpa [Switchboard.runTicks]
      using h2, h3⟩
  | cons n rest ih =>
    intro s t0 h1 h2 h3
    have ht := tick_spec s x n t0 h1 h2 h3
    have hrun : Switchboard.runTicks (n :: rest) s
        = Switchboard.runTicks rest (Switchboard.tick n s) := rfl
    have ihr := ih (Switchboard.tick n s) n ht.2.1 ht.2.2.1 ht.2.2.2
    rw [hrun]
    refine ⟨?_, ihr.2.1, ?_, ihr.2.2.2⟩
    · rw [ihr.1, ht.1, List.getLastD_cons]
      ring
    · rw [ihr.2.2.1, List.getLastD_cons]

/-- A chain over an appended list splits into a chain over the prefix and a
chain over the suffix starting at the last element of the prefix. -/
lemma chain_append_split (R : Int → Int → Prop) :
    ∀ (pre : List Int) (t0 : Int) (suf : List Int),
    List.Chain R t0 (pre ++ suf) →
    List.Chain R t0 pre ∧ List.Chain R (pre.getLastD t0) suf := by
  intro pre
  induction pre with
  | nil => intro t0 suf h; exact ⟨List.Chain.nil, h⟩
  | cons a pre ih =>
    intro t0 suf h
    cases h with
    | cons hr hc =>
      have hs := ih a suf hc
      refine ⟨List.Chain.cons hr hs.1, ?_⟩
      rw [List.getLastD_cons]
      exact hs.2

/-- The start of a strictly increasing chain is at most its last element. -/
lemma chain_le_getLastD :
    ∀ (l : List Int) (a : Int), List.Chain (· < ·) a l → a ≤ l.getLastD a := by
  intro l
  induction l with
  | nil => intro a h; exact le_refl a
  | cons b l ih =>
    intro a h
    cases h with
    | cons hab hc =>
      calc a ≤ b := le_of_lt hab
        _ ≤ (b :: l).getLastD a := by
            rw [List.getLastD_cons]
            exact ih b hc

/-- C2: from Running(x) with activeStart t0 and a strictly increasing
sequence of wall-clock readings, each tick adds exactly now minus the stored
reading to x's elapsed and advances the stored reading to now; across a whole
sequence of ticks the increase telescopes to exactly the last reading minus
t0, with no drift; and the elapsed of x never decreases along the
sequence. -/
theorem tick_accumulation_exact :
    ∀ (s : Switchboard.EngineState) (x : String) (t0 : Int),
    s.activeTaskId = some x → s.activeStart = some t0 →
    (∃ t ∈ s.tasks, t.id = x) →
    (∀ now : Int,
      Switchboard.elapsedOf (Switchboard.tick now s) x
        = Switchboard.elapsedOf s x + (now - t0)
      ∧ (Switchboard.tick now s).activeStart = some now)
    ∧ (∀ times : List Int,
      Switchboard.elapsedOf (Switchboard.runTicks times s) x
        = Switchboard.elapsedOf s x + (times.getLastD t0 - t0))
    ∧ (∀ pre suf : List Int, List.Chain (· < ·) t0 (pre ++ suf) →
      Switchboard.elapsedOf (Switchboard.runTicks pre s) x
        ≤ Switchboard.elapsedOf (Switchboard.runTicks (pre ++ suf) s) x) := by
  intro s x t0 h1 h2 h3
  refine ⟨?_, ?_, ?_⟩
  · intro now
    exact ⟨(tick_spec s x now t0 h1 h2 h3).1,
      (tick_spec s x now t0 h1 h2 h3).2.2.1⟩
  · intro times
    exact (runTicks_spec x times s t0 h1 h2 h3).1
  · intro pre suf hchain
    have hsplit := chain_append_split (· < ·) pre t0 suf hchain
    have hpre := runTicks_spec x pre s t0 h1 h2 h3
    have happ : Switchboard.runTicks (pre ++ suf) s
        = Switchboard.runTicks suf (Switchboard.runTicks pre s) := by
      simp [Switchboard.runTicks, List.foldl_append]
    have hsuf := runTicks_spec x suf (Switchboard.runTicks pre s)
      (pre.getLastD t0) hpre.2.1 hpre.2.2.1 hpre.2.2.2
    rw [happ, hsuf.1]
    have hnn : 0 ≤ suf.getLastD (pre.getLastD t0) - pre.getLastD t0 :=
      sub_nonneg.mpr (chain_le_getLastD suf (pre.getLastD t0) hsplit.2)
    linarith

/-- C2 witness: a single task a started at time 0 and ticked at the irregular
readings 1000, 2500, 3000 accumulates exactly 3000 elapsed milliseconds, and
the prefix after the first tick has accumulated no more than the whole
sequence. -/
theorem tick_accumulation_exact_witness :
    Switchboard.elapsedOf
        (Switchboard.runTicks [1000, 2500, 3000]
          (Switchboard.EngineState.mk [Switchboard.Task.mk "a" "A" 0 false]
            (some "a") (some 0))) "a" = 3000
    ∧ Switchboard.elapsedOf
        (Switchboard.runTicks [1000]
          (Switchboard.EngineState.mk [Switchboard.Task.mk "a" "A" 0 false]
            (some "a") (some 0))) "a"
      ≤ Switchboard.elapsedOf
          (Switchboard.runTicks ([1000] ++ [2500, 3000])
            (Switchboard.EngineState.mk [Switchboard.Task.mk "a" "A" 0 false]
              (some "a") (some 0))) "a" :=
  ⟨((tick_accumulation_exact
      (Switchboard.EngineState.mk [Switchboard.Task.mk "a" "A" 0 false]
        (some "a") (some 0)) "a" 0 rfl rfl (by decide)).2.1
      [1000, 2500, 3000]).trans (by decide),
   (tick_accumulation_exact
      (Switchboard.EngineState.mk [Switchboard.Task.mk "a" "A" 0 false]
        (some "a") (some 0)) "a" 0 rfl rfl (by decide)).2.2
      [1000] [2500, 3000]
      (List.Chain.cons (by decide)
        (List.Chain.cons (by decide)
          (List.Chain.cons (by decide) List.Chain.nil)))⟩
